import Mathlib

/-!
Verification of the audio-reactive video-generation pipeline of this
repository (news → script → speech audio → animated video).  The
definitions below are shallow embeddings of the Python sources
`src/video_maker.py`, `src/video_animations.py` and
`src/tts_generator.py`; machine floats are modelled by `ℚ`, Python's
`int(x)` truncation by `pyInt`, Python's float `%` by `qmod`.
-/

/-- Python's `int(x)` conversion: truncation toward zero. -/
def pyInt (q : ℚ) : ℤ := if 0 ≤ q then ⌊q⌋ else ⌈q⌉

/-- Python's float modulo `a % m`: the representative of `a` in `[0, m)`
when `m > 0` (result carries the sign of the divisor). -/
def qmod (a m : ℚ) : ℚ := a - m * ⌊a / m⌋

theorem pyInt_of_nonneg {q : ℚ} (h : 0 ≤ q) : pyInt q = ⌊q⌋ := if_pos h

theorem qmod_eq_mul_fract (a : ℚ) {m : ℚ} (hm : m ≠ 0) :
    qmod a m = m * Int.fract (a / m) := by
  unfold qmod Int.fract
  rw [mul_sub, mul_comm m (a / m), div_mul_cancel₀ a hm]

theorem qmod_nonneg (a : ℚ) {m : ℚ} (hm : 0 < m) : 0 ≤ qmod a m := by
  have h := Int.fract_nonneg (a / m)
  rw [qmod_eq_mul_fract a (ne_of_gt hm)]
  positivity

theorem qmod_lt (a : ℚ) {m : ℚ} (hm : 0 < m) : qmod a m < m := by
  have h := Int.fract_lt_one (a / m)
  rw [qmod_eq_mul_fract a (ne_of_gt hm)]
  calc m * Int.fract (a / m) < m * 1 := by
        exact mul_lt_mul_of_pos_left h hm
    _ = m := mul_one m

namespace VideoMaker

/-! ### Scene timeline of `create_video_from_audio` (src/video_maker.py)

The function builds `all_clips = [opening_clip] ++ article frame clips ++
[closing_clip]` where the opening clip lasts 3 s, the closing clip 2 s,
and each article contributes `num_frames = max(int(duration_per_article *
fps / 10), 3)` clips of `1.0 / fps * 10` seconds each (lines 332–371). -/

/-- `content_duration = duration - 3 - 2` (line 336). -/
def contentDuration (duration : ℚ) : ℚ := duration - 3 - 2

/-- `duration_per_article = content_duration / num_articles if num_articles > 0
else content_duration` (line 337). -/
def durationPerArticle (duration : ℚ) (numArticles : ℕ) : ℚ :=
  if 0 < numArticles then contentDuration duration / numArticles
  else contentDuration duration

/-- `num_frames = max(int(duration_per_article * fps / 10), 3)` (line 346). -/
def numFramesForArticle (duration : ℚ) (numArticles fps : ℕ) : ℤ :=
  max (pyInt (durationPerArticle duration numArticles * fps / 10)) 3

/-- `progress = frame_num / (num_frames - 1) if num_frames > 1 else 0.5`
(line 349). -/
def progressForFrame (numFrames : ℤ) (frameNum : ℕ) : ℚ :=
  if 1 < numFrames then (frameNum : ℚ) / ((numFrames : ℚ) - 1) else 1/2

/-- Phase of a clip in the assembled video. -/
inductive SegKind : Type
  | intro : SegKind
  | content : ℕ → SegKind
  | outro : SegKind
deriving DecidableEq, Repr

/-- One moviepy `ImageClip` of the assembled `all_clips` list: its phase
and its `set_duration` argument in seconds. -/
structure Clip : Type where
  kind : SegKind
  clipDuration : ℚ
deriving DecidableEq, Repr

/-- The `all_clips` list of `create_video_from_audio`: the opening clip
(3 s), for each article index `num_frames` clips of `10 / fps` s, then
the closing clip (2 s) (lines 332–371). -/
def allClips (duration : ℚ) (numArticles fps : ℕ) : List Clip :=
  ⟨SegKind.intro, 3⟩ ::
    ((List.range numArticles).flatMap fun i =>
      List.replicate (numFramesForArticle duration numArticles fps).toNat
        ⟨SegKind.content i, 10 / (fps : ℚ)⟩)
    ++ [⟨SegKind.outro, 2⟩]

/-- Total duration of the assembled video: `concatenate_videoclips` sums
the clip durations (line 375). -/
def videoDuration (duration : ℚ) (numArticles fps : ℕ) : ℚ :=
  ((allClips duration numArticles fps).map Clip.clipDuration).sum

/-- Frame count a clip contributes when encoded at `fps` frames per
second: its duration times the frame rate. -/
def totalTimelineFrames (duration : ℚ) (numArticles fps : ℕ) : ℚ :=
  ((allClips duration numArticles fps).map
    (fun c => c.clipDuration * (fps : ℚ))).sum

/-- The article indices of the content clips, in clip order. -/
def contentIndices (l : List Clip) : List ℕ :=
  l.filterMap fun c =>
    match c.kind with
    | SegKind.content i => some i
    | _ => none

/-- Start times of the clips in the concatenated video. -/
def clipStartTimes (duration : ℚ) (numArticles fps : ℕ) : List ℚ :=
  ((allClips duration numArticles fps).map Clip.clipDuration).scanl (· + ·) 0

lemma flatMap_const_replicate {α : Type} (n m : ℕ) (q : α) :
    ((List.range n).flatMap fun _ => List.replicate m q) = List.replicate (n * m) q := by
  induction n with
  | zero => simp
  | succ k ih =>
      rw [List.range_succ, List.flatMap_append, ih]
      simp [← List.replicate_add, Nat.succ_mul]

lemma map_clipDuration (d : ℚ) (n fps : ℕ) :
    (allClips d n fps).map Clip.clipDuration
      = 3 :: List.replicate (n * (numFramesForArticle d n fps).toNat) (10 / (fps : ℚ)) ++ [2] := by
  simp only [allClips, List.map_cons, List.map_append, List.map_flatMap, List.map_replicate,
    List.map_nil]
  rw [flatMap_const_replicate]

lemma videoDuration_eq (d : ℚ) (n fps : ℕ) :
    videoDuration d n fps
      = 5 + (n : ℚ) * ((numFramesForArticle d n fps).toNat * (10 / (fps : ℚ))) := by
  rw [videoDuration, map_clipDuration]
  simp [List.sum_replicate, nsmul_eq_mul]
  ring

lemma numFrames_10_2_30 : numFramesForArticle 10 2 30 = 7 := by
  norm_num [numFramesForArticle, durationPerArticle, contentDuration, pyInt]

lemma totalTimelineFrames_eq (d : ℚ) (n fps : ℕ) (h : (fps : ℚ) ≠ 0) :
    totalTimelineFrames d n fps
      = 5 * fps + (n : ℚ) * (10 * (numFramesForArticle d n fps).toNat) := by
  have hmap : (allClips d n fps).map (fun c => c.clipDuration * (fps : ℚ))
      = ((allClips d n fps).map Clip.clipDuration).map (fun q => q * (fps : ℚ)) := by
    rw [List.map_map]; rfl
  rw [totalTimelineFrames, hmap, map_clipDuration]
  simp [List.sum_replicate, nsmul_eq_mul, div_mul_cancel₀ (10 : ℚ) h]
  ring

lemma filterMap_replicate_content (m : ℕ) (i : ℕ) (q : ℚ) :
    (List.replicate m (Clip.mk (SegKind.content i) q)).filterMap
      (fun c => match c.kind with
        | SegKind.content j => some j
        | _ => none) = List.replicate m i := by
  induction m with
  | zero => rfl
  | succ k ih => simp only [List.replicate_succ, List.filterMap_cons, ih]

lemma contentIndices_allClips (d : ℚ) (n fps : ℕ) :
    contentIndices (allClips d n fps)
      = (List.range n).flatMap
          (fun i => List.replicate (numFramesForArticle d n fps).toNat i) := by
  simp only [contentIndices, allClips, List.filterMap_cons, List.filterMap_append,
    List.filterMap_flatMap]
  simp [filterMap_replicate_content]

lemma pairwise_flatMap_replicate (n m : ℕ) :
    List.Pairwise (· ≤ ·) ((List.range n).flatMap fun i => List.replicate m i) := by
  induction n with
  | zero => simp
  | succ k ih =>
      rw [List.range_succ, List.flatMap_append]
      rw [List.pairwise_append]
      refine ⟨ih, ?_, ?_⟩
      · simp
      · intro a ha b hb
        simp only [List.mem_flatMap, List.mem_range, List.mem_replicate] at ha hb
        obtain ⟨i, hi, _, rfl⟩ := ha
        simp at hb
        omega

lemma head_allClips (d : ℚ) (n fps : ℕ) :
    ((allClips d n fps).head?).map Clip.kind = some SegKind.intro := rfl

lemma getLast_allClips (d : ℚ) (n fps : ℕ) :
    ((allClips d n fps).getLast?).map Clip.kind = some SegKind.outro := by
  rw [allClips, List.getLast?_concat]
  rfl

lemma contentIndices_lt (d : ℚ) (n fps : ℕ) :
    ∀ i ∈ contentIndices (allClips d n fps), i < n := by
  rw [contentIndices_allClips]
  intro i hi
  simp only [List.mem_flatMap, List.mem_range, List.mem_replicate] at hi
  obtain ⟨j, hj, _, rfl⟩ := hi
  exact hj

lemma head_scanl {α : Type} (f : α → α → α) (a : α) (l : List α) :
    (l.scanl f a).head? = some a := by
  cases l <;> rfl

lemma chain'_lt_scanl {l : List ℚ} (h : ∀ x ∈ l, 0 < x) (a : ℚ) :
    List.Chain' (· < ·) (l.scanl (· + ·) a) := by
  induction l generalizing a with
  | nil => simp
  | cons x t ih =>
      rw [List.scanl_cons, List.singleton_append, List.chain'_cons']
      constructor
      · intro b hb
        rw [head_scanl] at hb
        obtain rfl : a + x = b := by simpa using hb
        have : 0 < x := h x (List.mem_cons_self x t)
        linarith
      · exact ih (fun y hy => h y (List.mem_cons_of_mem x hy)) (a + x)

lemma clipDuration_pos (d : ℚ) (n fps : ℕ) (hfps : 0 < fps) :
    ∀ c ∈ allClips d n fps, 0 < c.clipDuration := by
  intro c hc
  have hq : (0 : ℚ) < fps := by exact_mod_cast hfps
  simp only [allClips, List.mem_cons, List.mem_append, List.mem_flatMap,
    List.mem_replicate, List.mem_range, List.mem_singleton] at hc
  rcases hc with (rfl | ⟨i, _, _, rfl⟩) | (rfl | h)
  · norm_num
  · simp only
    positivity
  · norm_num
  · exact absurd h (List.not_mem_nil c)

lemma totalFrames_10_2_30 : totalTimelineFrames 10 2 30 = 290 := by
  rw [totalTimelineFrames_eq 10 2 30 (by norm_num), numFrames_10_2_30,
    show Int.toNat 7 = 7 from rfl]
  norm_num

lemma videoDuration_10_2_30 : videoDuration 10 2 30 = 29 / 3 := by
  rw [videoDuration_eq, numFrames_10_2_30, show Int.toNat 7 = 7 from rfl]
  norm_num

/-- C1 counterexample: for `total_duration = 10 s`, `fps = 30` and two
content items, the encoded frame counts of the assembled clip list sum to
290, not `ceil(10 * 30) = 300`: the claimed exact partition of
`[0, ceil(total_duration * frame_rate))` fails on the code. -/
theorem c1_frame_sum_counterexample :
    totalTimelineFrames 10 2 30 ≠ ((⌈(10 : ℚ) * 30⌉ : ℤ) : ℚ) := by
  rw [totalFrames_10_2_30]
  norm_num

/-- C1 (amended): the clip list starts with the intro, ends with the
outro, lists the content items in original item order, and its frame
counts sum to `5 * fps + numArticles * 10 * max(int(dpa * fps / 10), 3)`
— which need not equal `ceil(total_duration * frame_rate)`. -/
theorem c1_timeline_structure (d : ℚ) (n fps : ℕ) (hfps : 0 < fps) :
    ((allClips d n fps).head?).map Clip.kind = some SegKind.intro
    ∧ ((allClips d n fps).getLast?).map Clip.kind = some SegKind.outro
    ∧ List.Pairwise (· ≤ ·) (contentIndices (allClips d n fps))
    ∧ (∀ i ∈ contentIndices (allClips d n fps), i < n)
    ∧ totalTimelineFrames d n fps
        = 5 * fps + (n : ℚ) * (10 * ((numFramesForArticle d n fps).toNat : ℚ)) := by
  refine ⟨head_allClips d n fps, getLast_allClips d n fps, ?_, contentIndices_lt d n fps, ?_⟩
  · rw [contentIndices_allClips]
    exact pairwise_flatMap_replicate n _
  · exact totalTimelineFrames_eq d n fps (by positivity)

/-- Witness instantiating `c1_timeline_structure` at a concrete render. -/
theorem c1_timeline_structure_witness :
    ((allClips 10 2 30).head?).map Clip.kind = some SegKind.intro
    ∧ ((allClips 10 2 30).getLast?).map Clip.kind = some SegKind.outro
    ∧ List.Pairwise (· ≤ ·) (contentIndices (allClips 10 2 30))
    ∧ (∀ i ∈ contentIndices (allClips 10 2 30), i < 2)
    ∧ totalTimelineFrames 10 2 30
        = 5 * 30 + (2 : ℚ) * (10 * ((numFramesForArticle 10 2 30).toNat : ℚ)) :=
  c1_timeline_structure 10 2 30 (by norm_num)

/-- C2 counterexample: for a 10 s audio track at 30 fps with two content
items the assembled video lasts 29/3 s, so the audio/video mismatch is
1/3 s — not strictly less than one frame (1/30 s). -/
theorem c2_duration_counterexample :
    ¬ |(10 : ℚ) - videoDuration 10 2 30| < 1 / 30 := by
  rw [videoDuration_10_2_30, abs_of_nonneg (by norm_num)]
  norm_num

/-- C2 (amended): the clips of the assembled video start at strictly
increasing times (strict chronological order), and its total duration is
`5 + numArticles * num_frames * (10 / fps)` seconds, which can differ
from the attached audio track's duration by one frame or more. -/
theorem c2_assembler_order_duration (d : ℚ) (n fps : ℕ) (hfps : 0 < fps) :
    videoDuration d n fps
      = 5 + (n : ℚ) * (((numFramesForArticle d n fps).toNat : ℚ) * (10 / (fps : ℚ)))
    ∧ List.Chain' (· < ·) (clipStartTimes d n fps) := by
  refine ⟨videoDuration_eq d n fps, ?_⟩
  rw [clipStartTimes]
  refine chain'_lt_scanl ?_ 0
  intro x hx
  obtain ⟨c, hc, rfl⟩ := List.mem_map.mp hx
  exact clipDuration_pos d n fps hfps c hc

/-- Witness instantiating `c2_assembler_order_duration` at a concrete render. -/
theorem c2_assembler_order_duration_witness :
    videoDuration 10 2 30
      = 5 + (2 : ℚ) * (((numFramesForArticle 10 2 30).toNat : ℚ) * (10 / (30 : ℚ)))
    ∧ List.Chain' (· < ·) (clipStartTimes 10 2 30) :=
  c2_assembler_order_duration 10 2 30 (by norm_num)

/-- C3 counterexample: for a 1 s audio track the code's content duration
is `1 - 3 - 2 = -4 < 0`; no proportional scaling of the intro/outro
durations takes place. -/
theorem c3_negative_content_counterexample : contentDuration 1 < 0 := by
  norm_num [contentDuration]

/-- C3 (amended): the intro (3 s) and outro (2 s) durations are fixed and
never scaled: the content duration is always `total_duration - 5`, which
is negative exactly when `total_duration < 5`; the per-article frame
count is nevertheless clamped below at 3, so rendering proceeds. -/
theorem c3_no_scaling (d : ℚ) (n fps : ℕ) :
    contentDuration d = d - 5
    ∧ (contentDuration d < 0 ↔ d < 5)
    ∧ 3 ≤ numFramesForArticle d n fps := by
  refine ⟨by rw [contentDuration]; ring, ?_, le_max_right _ _⟩
  rw [contentDuration]
  constructor <;> intro h <;> linarith

/-- C4 counterexample: on a single-frame segment the renderer receives
progress `0.5`, not the claimed fixed value `0`. -/
theorem c4_single_frame_counterexample :
    progressForFrame 1 0 = 1/2 ∧ (1/2 : ℚ) ≠ 0 := by
  constructor
  · simp [progressForFrame]
  · norm_num

/-- C4 (amended): the progress passed for frame `i` of an `n`-frame
segment is `i / (n - 1)` when `n > 1` and the fixed value `0.5`
otherwise; in the `n > 1` case the denominator is nonzero, so no
division by zero occurs. -/
theorem c4_progress_formula (nf : ℤ) (i : ℕ) :
    (1 < nf → progressForFrame nf i = (i : ℚ) / ((nf : ℚ) - 1))
    ∧ (nf ≤ 1 → progressForFrame nf i = 1/2)
    ∧ (1 < nf → ((nf : ℚ) - 1) ≠ 0) := by
  refine ⟨fun h => ?_, fun h => ?_, fun h => ?_⟩
  · rw [progressForFrame, if_pos h]
  · rw [progressForFrame, if_neg (by omega)]
  · have : (1 : ℚ) < (nf : ℚ) := by exact_mod_cast h
    intro hc
    nlinarith

/-- Witness instantiating `c4_progress_formula` on a two-frame and a
one-frame segment. -/
theorem c4_progress_formula_witness :
    progressForFrame 2 1 = (1 : ℚ) / ((2 : ℚ) - 1) ∧ progressForFrame 1 1 = 1/2 := by
  constructor
  · have h := (c4_progress_formula 2 1).1 (by norm_num)
    simpa using h
  · exact (c4_progress_formula 1 1).2.1 le_rfl

end VideoMaker
namespace VideoAnimations

/-! ### `ParticleSystem` (src/video_animations.py, lines 14–53)

`update` advances each particle by `velocity * (1 + audio_level * 4)` and
then wraps: `if p['x'] < 0: p['x'] = self.width`, then
`if p['x'] > self.width: p['x'] = 0` (likewise for `y`). -/

/-- One particle of the particle field: position and velocity. -/
structure Particle : Type where
  x : ℚ
  y : ℚ
  vx : ℚ
  vy : ℚ
deriving DecidableEq, Repr

/-- `speed_boost = 1 + (audio_level * 4)` (line 34). -/
def speedBoost (audioLevel : ℚ) : ℚ := 1 + audioLevel * 4

/-- The two sequential edge checks of `ParticleSystem.update` applied to
one coordinate (lines 41–44). -/
def wrapCoord (bound x : ℚ) : ℚ :=
  let x1 := if x < 0 then bound else x
  if bound < x1 then 0 else x1

/-- One step of `ParticleSystem.update` on a single particle. -/
def updateParticle (width height audioLevel : ℚ) (p : Particle) : Particle :=
  { p with
    x := wrapCoord width (p.x + p.vx * speedBoost audioLevel)
    y := wrapCoord height (p.y + p.vy * speedBoost audioLevel) }

/-- Modelled from the spec: the wrap rule the spec describes — "exit one
side → re-enter the opposite side at symmetric position" — re-enters at
the mirrored offset from the opposite edge.  Stated only to compare with
the source's `wrapCoord`. -/
def specMirrorWrap (bound x : ℚ) : ℚ :=
  if x < 0 then bound + x else if bound < x then x - bound else x

lemma wrapCoord_of_neg {bound x : ℚ} (h : x < 0) : wrapCoord bound x = bound := by
  rw [wrapCoord]
  simp only [if_pos h]
  rw [if_neg (lt_irrefl bound)]

lemma wrapCoord_of_gt {bound x : ℚ} (hb : 0 ≤ bound) (h : bound < x) :
    wrapCoord bound x = 0 := by
  have hx : ¬ x < 0 := by linarith
  rw [wrapCoord]
  simp only [if_neg hx]
  rw [if_pos h]

lemma wrapCoord_mem {bound : ℚ} (hb : 0 ≤ bound) (x : ℚ) :
    0 ≤ wrapCoord bound x ∧ wrapCoord bound x ≤ bound := by
  rw [wrapCoord]
  split_ifs with h1 h2 h3 <;> constructor <;> linarith

/-- C5 counterexample: a particle at x = 95 with velocity 10 (no audio
boost) moves to 105, beyond a canvas of width 100; the code re-enters it
at coordinate 0, while the spec's mirrored re-entry would place it at 5. -/
theorem c5_mirror_counterexample :
    (updateParticle 100 100 0 ⟨95, 50, 10, 0⟩).x = 0
    ∧ specMirrorWrap 100 (95 + 10 * speedBoost 0) = 5
    ∧ ((0 : ℚ) ≠ 5) := by
  refine ⟨?_, ?_, by norm_num⟩
  · show wrapCoord 100 (95 + 10 * speedBoost 0) = 0
    rw [wrapCoord_of_gt (by norm_num) (by norm_num [speedBoost])]
  · norm_num [specMirrorWrap, speedBoost]

/-- C5 (amended): after an update every particle coordinate lies in
`[0, width] × [0, height]`, but a coordinate that leaves the canvas is
placed exactly at the opposite edge (`width` when it exits below 0, `0`
when it exits above `width`), not at the mirrored symmetric position. -/
theorem c5_wrap_behavior (width height audioLevel : ℚ) (p : Particle)
    (hw : 0 ≤ width) (hh : 0 ≤ height) :
    (0 ≤ (updateParticle width height audioLevel p).x
      ∧ (updateParticle width height audioLevel p).x ≤ width
      ∧ 0 ≤ (updateParticle width height audioLevel p).y
      ∧ (updateParticle width height audioLevel p).y ≤ height)
    ∧ (p.x + p.vx * speedBoost audioLevel < 0 →
        (updateParticle width height audioLevel p).x = width)
    ∧ (width < p.x + p.vx * speedBoost audioLevel →
        (updateParticle width height audioLevel p).x = 0) := by
  obtain ⟨hx0, hx1⟩ := wrapCoord_mem hw (p.x + p.vx * speedBoost audioLevel)
  obtain ⟨hy0, hy1⟩ := wrapCoord_mem hh (p.y + p.vy * speedBoost audioLevel)
  exact ⟨⟨hx0, hx1, hy0, hy1⟩,
    fun h => wrapCoord_of_neg h,
    fun h => wrapCoord_of_gt hw h⟩

/-- Witness instantiating `c5_wrap_behavior` on a particle that exits the
left edge of a 100 by 100 canvas. -/
theorem c5_wrap_behavior_witness :
    (0 ≤ (updateParticle 100 100 0 ⟨3, 20, -7, 0⟩).x
      ∧ (updateParticle 100 100 0 ⟨3, 20, -7, 0⟩).x ≤ 100
      ∧ 0 ≤ (updateParticle 100 100 0 ⟨3, 20, -7, 0⟩).y
      ∧ (updateParticle 100 100 0 ⟨3, 20, -7, 0⟩).y ≤ 100)
    ∧ ((3 : ℚ) + (-7) * speedBoost 0 < 0 →
        (updateParticle 100 100 0 ⟨3, 20, -7, 0⟩).x = 100)
    ∧ ((100 : ℚ) < 3 + (-7) * speedBoost 0 →
        (updateParticle 100 100 0 ⟨3, 20, -7, 0⟩).x = 0) :=
  c5_wrap_behavior 100 100 0 ⟨3, 20, -7, 0⟩ (by norm_num) (by norm_num)

end VideoAnimations
namespace VideoAnimations

/-! ### `create_animated_text` (src/video_animations.py, lines 117–203)

The renderer is modelled as the list of text-draw commands it issues.
The font rasterizer's metrics (`draw.textbbox`) and the runtime's sine
function are deterministic collaborators of the render environment and
enter as the explicit parameter `TextEnv`. -/

/-- Selectable text effect (`'slide' | 'zoom' | 'wave' | 'pulse' | 'fade'`). -/
inductive TextEffect : Type
  | slide | zoom | wave | pulse | fade
deriving DecidableEq, Repr

/-- Deterministic environment of the renderer: `textSize s fs` is the
`textbbox` width/height of string `s` at font size `fs`, and
`waveOffset progress i` is `math.sin(progress * math.pi * 2 + i * 0.5)`. -/
structure TextEnv : Type where
  textSize : String → ℤ → ℤ × ℤ
  waveOffset : ℚ → ℕ → ℚ

/-- The inputs of one `create_animated_text` call. -/
structure TextArgs : Type where
  width : ℕ
  height : ℕ
  text : String
  fontSize : ℤ
  progress : ℚ
  audioLevel : ℚ
  effect : TextEffect

/-- One `draw.text` command: position, string, font size, RGBA fill. -/
structure DrawOp : Type where
  x : ℤ
  y : ℤ
  str : String
  fontSize : ℤ
  color : ℤ × ℤ × ℤ × ℤ
deriving DecidableEq, Repr

/-- Glow pass of lines 197–201: four offset copies with audio-driven
alpha `int(100 + 100 * audio_level)`, then the white main text. -/
def glowOps (text : String) (x y : ℤ) (fontSize : ℤ) (audioLevel : ℚ) : List DrawOp :=
  let ga := pyInt (100 + 100 * audioLevel)
  [⟨x + 2, y + 2, text, fontSize, (0, 100, 255, ga)⟩,
   ⟨x - 2, y - 2, text, fontSize, (0, 100, 255, ga)⟩,
   ⟨x + 2, y - 2, text, fontSize, (0, 100, 255, ga)⟩,
   ⟨x - 2, y + 2, text, fontSize, (0, 100, 255, ga)⟩,
   ⟨x, y, text, fontSize, (255, 255, 255, 255)⟩]

/-- Character loop of the `'wave'` effect (lines 166–171): each character
drawn at `y + int(10 * sin(progress * pi * 2 + i * 0.5))`, advancing the
x cursor by the character's own width. -/
def waveOps (env : TextEnv) (fontSize : ℤ) (progress : ℚ) (y : ℤ) :
    ℤ → ℕ → List Char → List DrawOp
  | _, _, [] => []
  | curX, i, c :: rest =>
      let charY := y + pyInt (10 * env.waveOffset progress i)
      let cw := (env.textSize (String.singleton c) fontSize).1
      ⟨curX, charY, String.singleton c, fontSize, (255, 255, 255, 255)⟩ ::
        waveOps env fontSize progress y (curX + cw) (i + 1) rest

/-- `create_animated_text`: the ordered draw commands issued for the
selected effect. -/
def createAnimatedText (env : TextEnv) (a : TextArgs) : List DrawOp :=
  let tw := (env.textSize a.text a.fontSize).1
  let th := (env.textSize a.text a.fontSize).2
  let x0 := Int.fdiv ((a.width : ℤ) - tw) 2
  let y0 := Int.fdiv ((a.height : ℤ) - th) 2
  match a.effect with
  | TextEffect.slide =>
      let x := pyInt (-(tw : ℚ) + ((a.width : ℚ) + (tw : ℚ)) * a.progress)
      glowOps a.text x y0 a.fontSize a.audioLevel
  | TextEffect.zoom =>
      let fs := pyInt ((a.fontSize : ℚ) * (1/10 + 9/10 * a.progress))
      let tw2 := (env.textSize a.text fs).1
      let th2 := (env.textSize a.text fs).2
      glowOps a.text (Int.fdiv ((a.width : ℤ) - tw2) 2)
        (Int.fdiv ((a.height : ℤ) - th2) 2) fs a.audioLevel
  | TextEffect.wave =>
      waveOps env a.fontSize a.progress y0 x0 0 a.text.toList
  | TextEffect.pulse =>
      let fs := pyInt ((a.fontSize : ℚ) * (1 + a.audioLevel * (1/5)))
      let tw2 := (env.textSize a.text fs).1
      let th2 := (env.textSize a.text fs).2
      glowOps a.text (Int.fdiv ((a.width : ℤ) - tw2) 2)
        (Int.fdiv ((a.height : ℤ) - th2) 2) fs a.audioLevel
  | TextEffect.fade =>
      [⟨x0, y0, a.text, a.fontSize, (255, 255, 255, pyInt (255 * a.progress))⟩]

/-- A concrete render environment for witnessing. -/
def sampleTextEnv : TextEnv :=
  ⟨fun s fs => (fs * (s.length : ℤ), fs), fun _ _ => 0⟩

/-- Concrete renderer inputs for witnessing. -/
def sampleTextArgs : TextArgs :=
  ⟨1080, 1920, "AI TECH BYTES", 60, 1/2, 1/4, TextEffect.slide⟩

/-- C6: the animated-text renderer is pure — in a fixed render
environment, two calls on identical `(width, height, text, font size,
progress, amplitude, effect)` inputs issue identical draw commands,
hence pixel-identical output images. -/
theorem c6_text_renderer_pure (env : TextEnv) (a b : TextArgs) (h : a = b) :
    createAnimatedText env a = createAnimatedText env b := by
  rw [h]

/-- Witness: two renders of the same concrete slide-in title coincide. -/
theorem c6_text_renderer_pure_witness :
    createAnimatedText sampleTextEnv sampleTextArgs
      = createAnimatedText sampleTextEnv sampleTextArgs :=
  c6_text_renderer_pure sampleTextEnv sampleTextArgs sampleTextArgs rfl

end VideoAnimations

namespace VideoMaker

/-! ### `create_animated_news_frame_enhanced` (src/video_maker.py, lines 143–171)

The function renders the tech background, pastes the animated text over
it (`img.paste(text_img, (0, 0), text_img)`), and finally pastes the
animated shapes over both.  Images are pixel maps; an overlay is `none`
where its alpha mask is transparent. -/

/-- An opaque RGB raster. -/
abbrev BaseImage : Type := ℕ × ℕ → ℤ × ℤ × ℤ

/-- An RGBA overlay: `none` where fully transparent. -/
abbrev OverlayImage : Type := ℕ × ℕ → Option (ℤ × ℤ × ℤ)

/-- PIL's `img.paste(overlay, (0, 0), overlay)`: take the overlay pixel
where its mask is set, else keep the base pixel. -/
def pasteWithMask (base : BaseImage) (ov : OverlayImage) : BaseImage :=
  fun p => (ov p).getD (base p)

/-- The compositor: background, then text pasted over it, then shapes
pasted over both (lines 148–169). -/
def createAnimatedNewsFrameEnhanced (bg : BaseImage)
    (textLayer shapesLayer : OverlayImage) : BaseImage :=
  pasteWithMask (pasteWithMask bg textLayer) shapesLayer

/-- A visual layer of one frame. -/
inductive LayerKind : Type
  | background | particles | shapes | text
deriving DecidableEq, Repr

/-- The paste order `create_animated_news_frame_enhanced` performs. -/
def enhancedFrameLayerOrder : List LayerKind :=
  [LayerKind.background, LayerKind.text, LayerKind.shapes]

/-- Modelled from the spec: the fixed compositing order the spec states
(background → particles → shapes → text).  Stated only to compare with
the source's paste order. -/
def specLayerOrder : List LayerKind :=
  [LayerKind.background, LayerKind.particles, LayerKind.shapes, LayerKind.text]

/-- C7 counterexample: at a pixel where both the text and the shapes
overlays are opaque, the composited frame shows the shapes colour — the
shapes layer is drawn over the text layer, and no particle layer exists,
so the order is not background → particles → shapes → text. -/
theorem c7_order_counterexample :
    createAnimatedNewsFrameEnhanced (fun _ => (10, 10, 30))
        (fun _ => some (255, 255, 255)) (fun _ => some (0, 150, 255)) (0, 0)
      = (0, 150, 255)
    ∧ ((0, 150, 255) : ℤ × ℤ × ℤ) ≠ (255, 255, 255)
    ∧ enhancedFrameLayerOrder ≠ specLayerOrder := by
  refine ⟨rfl, by decide, by decide⟩

/-- C7 (amended): the active layers are composited deterministically in
the fixed order background, then text, then shapes — each later layer
drawn over all earlier ones, respecting per-pixel transparency; no
particle layer is composited by this frame function. -/
theorem c7_composite_order (bg : BaseImage) (txt shp : OverlayImage) (p : ℕ × ℕ) :
    (∀ c, shp p = some c → createAnimatedNewsFrameEnhanced bg txt shp p = c)
    ∧ (shp p = none → ∀ c, txt p = some c →
        createAnimatedNewsFrameEnhanced bg txt shp p = c)
    ∧ (shp p = none → txt p = none →
        createAnimatedNewsFrameEnhanced bg txt shp p = bg p)
    ∧ enhancedFrameLayerOrder = [LayerKind.background, LayerKind.text, LayerKind.shapes] := by
  refine ⟨fun c h => ?_, fun h c h2 => ?_, fun h h2 => ?_, rfl⟩
  · simp [createAnimatedNewsFrameEnhanced, pasteWithMask, h]
  · simp [createAnimatedNewsFrameEnhanced, pasteWithMask, h, h2]
  · simp [createAnimatedNewsFrameEnhanced, pasteWithMask, h, h2]

/-- Witness: a fully transparent text and shapes overlay leave the
background pixel visible. -/
theorem c7_composite_order_witness :
    createAnimatedNewsFrameEnhanced (fun _ => (10, 10, 30))
        (fun _ => none) (fun _ => none) (0, 0) = (10, 10, 30) :=
  (c7_composite_order (fun _ => (10, 10, 30)) (fun _ => none) (fun _ => none) (0, 0)).2.2.1
    rfl rfl

end VideoMaker
namespace AmplitudeExtractor

/-! ### Amplitude Extractor

Modelled from the spec: the Amplitude Extractor component (spec §4.1) is
not present under src/ — no source file computes a per-frame amplitude
series (the renderers only accept an `audio_level` argument).  Following
the spec's words: compute a short-window energy measure over the raw
signal, min-max normalize across the whole clip with an epsilon-guarded
denominator and clamp to [0,1], and linearly resample onto `N` evenly
spaced points; zero-length audio yields the all-zero series of length
`N`. -/

/-- Clamp a value to `[0, 1]`. -/
def clamp01 (q : ℚ) : ℚ := max 0 (min 1 q)

/-- Size of one short analysis window, in samples. -/
def analysisWindow : ℕ := 1024

/-- Epsilon guarding the normalization denominator. -/
def epsilon : ℚ := 1 / 1000000

/-- Windowed energy measure: the mean of the squared samples. -/
def meanSq (l : List ℚ) : ℚ :=
  if l.isEmpty then 0 else ((l.map fun s => s * s).sum) / l.length

/-- Number of analysis windows covering `len` samples. -/
def numWindows (len : ℕ) : ℕ := (len + analysisWindow - 1) / analysisWindow

/-- Energy of each analysis window of the raw signal. -/
def windowEnergies (samples : List ℚ) : List ℚ :=
  (List.range (numWindows samples.length)).map fun j =>
    meanSq ((samples.drop (j * analysisWindow)).take analysisWindow)

/-- Minimum of a nonempty list (0 for the empty list). -/
def listMin : List ℚ → ℚ
  | [] => 0
  | h :: t => t.foldl min h

/-- Maximum of a nonempty list (0 for the empty list). -/
def listMax : List ℚ → ℚ
  | [] => 0
  | h :: t => t.foldl max h

/-- Min-max normalization with epsilon-guarded denominator, clamped to
`[0, 1]`. -/
def normalize (es : List ℚ) : List ℚ :=
  es.map fun e => clamp01 ((e - listMin es) / (listMax es - listMin es + epsilon))

/-- Linear interpolation between `a` and `b`. -/
def lerp (a b t : ℚ) : ℚ := a + (b - a) * t

/-- Value of one resampled point: linear interpolation of the curve at
the fractional position of point `i` of `n`. -/
def resamplePoint (vals : List ℚ) (n i : ℕ) : ℚ :=
  let t : ℚ := if 1 < n then (i : ℚ) * ((vals.length : ℚ) - 1) / ((n : ℚ) - 1) else 0
  let j := (⌊t⌋).toNat
  lerp (vals.getD j 0) (vals.getD (min (j + 1) (vals.length - 1)) 0) (t - ⌊t⌋)

/-- Linear resampling of a value list onto `n` evenly spaced points. -/
def resample (n : ℕ) (vals : List ℚ) : List ℚ :=
  (List.range n).map (resamplePoint vals n)

/-- The Amplitude Extractor: raw samples and target frame count `n` to a
normalized per-frame amplitude series of length `n`. -/
def amplitudeSeries (samples : List ℚ) (n : ℕ) : List ℚ :=
  if samples.isEmpty then List.replicate n 0
  else resample n (normalize (windowEnergies samples))

lemma clamp01_mem (q : ℚ) : 0 ≤ clamp01 q ∧ clamp01 q ≤ 1 :=
  ⟨le_max_left 0 _, max_le (by norm_num) (min_le_left 1 q)⟩

lemma getD_mem_bounds {l : List ℚ} (h : ∀ x ∈ l, 0 ≤ x ∧ x ≤ 1) (j : ℕ) :
    0 ≤ l.getD j 0 ∧ l.getD j 0 ≤ 1 := by
  rcases hj : l.get? j with _ | v
  · rw [List.getD_eq_getElem?_getD, ← List.get?_eq_getElem?, hj]
    norm_num
  · rw [List.getD_eq_getElem?_getD, ← List.get?_eq_getElem?, hj]
    exact h v (List.get?_mem hj)

lemma lerp_mem {a b t : ℚ} (ha : 0 ≤ a ∧ a ≤ 1) (hb : 0 ≤ b ∧ b ≤ 1)
    (ht : 0 ≤ t ∧ t ≤ 1) : 0 ≤ lerp a b t ∧ lerp a b t ≤ 1 := by
  obtain ⟨ha0, ha1⟩ := ha
  obtain ⟨hb0, hb1⟩ := hb
  obtain ⟨ht0, ht1⟩ := ht
  rw [lerp]
  constructor <;> nlinarith

lemma fract_bounds (t : ℚ) : 0 ≤ t - ⌊t⌋ ∧ t - ⌊t⌋ ≤ 1 := by
  have h0 := Int.fract_nonneg t
  have h1 := Int.fract_lt_one t
  rw [Int.fract] at h0 h1
  exact ⟨h0, le_of_lt h1⟩

lemma resample_length (n : ℕ) (vals : List ℚ) : (resample n vals).length = n := by
  rw [resample, List.length_map, List.length_range]

lemma resample_mem_bounds (n : ℕ) {vals : List ℚ}
    (h : ∀ x ∈ vals, 0 ≤ x ∧ x ≤ 1) :
    ∀ v ∈ resample n vals, 0 ≤ v ∧ v ≤ 1 := by
  intro v hv
  rw [resample, List.mem_map] at hv
  obtain ⟨i, _, rfl⟩ := hv
  rw [resamplePoint]
  exact lerp_mem (getD_mem_bounds h _) (getD_mem_bounds h _) (fract_bounds _)

lemma foldl_min_zero {t : List ℚ} (h : ∀ x ∈ t, x = 0) : t.foldl min 0 = 0 := by
  induction t with
  | nil => rfl
  | cons x r ih =>
      rw [List.foldl_cons, h x (List.mem_cons_self x r), min_self]
      exact ih fun y hy => h y (List.mem_cons_of_mem x hy)

lemma foldl_max_zero {t : List ℚ} (h : ∀ x ∈ t, x = 0) : t.foldl max 0 = 0 := by
  induction t with
  | nil => rfl
  | cons x r ih =>
      rw [List.foldl_cons, h x (List.mem_cons_self x r), max_self]
      exact ih fun y hy => h y (List.mem_cons_of_mem x hy)

lemma listMin_zero {l : List ℚ} (h : ∀ x ∈ l, x = 0) : listMin l = 0 := by
  cases l with
  | nil => rfl
  | cons x t =>
      rw [listMin, h x (List.mem_cons_self x t)]
      exact foldl_min_zero fun y hy => h y (List.mem_cons_of_mem x hy)

lemma listMax_zero {l : List ℚ} (h : ∀ x ∈ l, x = 0) : listMax l = 0 := by
  cases l with
  | nil => rfl
  | cons x t =>
      rw [listMax, h x (List.mem_cons_self x t)]
      exact foldl_max_zero fun y hy => h y (List.mem_cons_of_mem x hy)

lemma meanSq_zero {l : List ℚ} (h : ∀ x ∈ l, x = 0) : meanSq l = 0 := by
  rw [meanSq]
  split_ifs with he
  · rfl
  · have : (l.map fun s => s * s).sum = 0 := by
      apply List.sum_eq_zero
      intro x hx
      rw [List.mem_map] at hx
      obtain ⟨s, hs, rfl⟩ := hx
      rw [h s hs, mul_zero]
    rw [this, zero_div]

lemma windowEnergies_zero {samples : List ℚ} (h : ∀ s ∈ samples, s = 0) :
    ∀ e ∈ windowEnergies samples, e = 0 := by
  intro e he
  rw [windowEnergies, List.mem_map] at he
  obtain ⟨j, _, rfl⟩ := he
  apply meanSq_zero
  intro x hx
  exact h x (List.mem_of_mem_drop (List.mem_of_mem_take hx))

lemma normalize_zero {es : List ℚ} (h : ∀ e ∈ es, e = 0) :
    ∀ x ∈ normalize es, x = 0 := by
  intro x hx
  rw [normalize, List.mem_map] at hx
  obtain ⟨e, he, rfl⟩ := hx
  rw [h e he, listMin_zero h, listMax_zero h]
  norm_num [clamp01, epsilon]

lemma normalize_mem_bounds (es : List ℚ) :
    ∀ x ∈ normalize es, 0 ≤ x ∧ x ≤ 1 := by
  intro x hx
  rw [normalize, List.mem_map] at hx
  obtain ⟨e, _, rfl⟩ := hx
  exact clamp01_mem _

lemma getD_zero {l : List ℚ} (h : ∀ x ∈ l, x = 0) (j : ℕ) : l.getD j 0 = 0 := by
  rcases hj : l.get? j with _ | v
  · rw [List.getD_eq_getElem?_getD, ← List.get?_eq_getElem?, hj]
    rfl
  · rw [List.getD_eq_getElem?_getD, ← List.get?_eq_getElem?, hj]
    exact h v (List.get?_mem hj)

lemma resample_zero (n : ℕ) {vals : List ℚ} (h : ∀ x ∈ vals, x = 0) :
    resample n vals = List.replicate n 0 := by
  rw [List.eq_replicate_iff]
  refine ⟨resample_length n vals, ?_⟩
  intro v hv
  rw [resample, List.mem_map] at hv
  obtain ⟨i, _, rfl⟩ := hv
  rw [resamplePoint, getD_zero h, getD_zero h, lerp]
  ring

/-- C8: for every raw input and target frame count `n` the Amplitude
Extractor produces a series of length exactly `n` with every value in
`[0, 1]`, and a constant-zero (silent) input yields the all-zero series
of length `n`. -/
theorem c8_amplitude_extractor (samples : List ℚ) (n : ℕ) :
    (amplitudeSeries samples n).length = n
    ∧ (∀ v ∈ amplitudeSeries samples n, 0 ≤ v ∧ v ≤ 1)
    ∧ ((∀ s ∈ samples, s = 0) → amplitudeSeries samples n = List.replicate n 0) := by
  refine ⟨?_, ?_, ?_⟩
  · rw [amplitudeSeries]
    split_ifs
    · rw [List.length_replicate]
    · exact resample_length n _
  · rw [amplitudeSeries]
    split_ifs
    · intro v hv
      rw [List.eq_of_mem_replicate hv]
      norm_num
    · exact resample_mem_bounds n (normalize_mem_bounds _)
  · intro h
    rw [amplitudeSeries]
    split_ifs
    · rfl
    · exact resample_zero n (normalize_zero (windowEnergies_zero h))

/-- Witness: a three-sample silent clip resampled to two frames is the
all-zero series of length two. -/
theorem c8_amplitude_extractor_witness :
    amplitudeSeries [0, 0, 0] 2 = List.replicate 2 0 :=
  (c8_amplitude_extractor [0, 0, 0] 2).2.2 (by simp)

end AmplitudeExtractor
namespace TTSGenerator

/-! ### `generate_audio_from_news` (src/tts_generator.py, lines 12–104)

`load_news_from_file` returns the parsed article list, or `[]` on a
missing file or invalid JSON; `generate_audio_from_news` substitutes a
single placeholder item when that list is empty and proceeds. -/

/-- One news article: `(title, description)`. -/
structure NewsItem : Type where
  title : String
  description : String
deriving DecidableEq, Repr

/-- The placeholder item of lines 87–88. -/
def placeholderItem : NewsItem :=
  ⟨"No news available", "Please check back later for updates."⟩

/-- `load_news_from_file`: `parsed = none` models a missing file or
invalid JSON (both return `[]`), `some l` a successfully parsed list. -/
def loadNewsFromFile (parsed : Option (List NewsItem)) : List NewsItem :=
  parsed.getD []

/-- The news list `generate_audio_from_news` actually narrates: the
loaded list, or the single placeholder item when it is empty
(lines 84–88). -/
def resolveNewsItems (parsed : Option (List NewsItem)) : List NewsItem :=
  let items := loadNewsFromFile parsed
  if items.isEmpty then [placeholderItem] else items

/-- C9: an unavailable (missing/invalid file) or empty content source is
replaced by the single documented placeholder item; the narrated list is
never empty, and the video render also proceeds (its clip list stays
nonempty) even when its own news list is empty. -/
theorem c9_placeholder_default (parsed : Option (List NewsItem)) :
    (parsed = none → resolveNewsItems parsed = [placeholderItem])
    ∧ (parsed = some [] → resolveNewsItems parsed = [placeholderItem])
    ∧ resolveNewsItems parsed ≠ []
    ∧ ∀ (d : ℚ) (fps : ℕ), VideoMaker.allClips d 0 fps ≠ [] := by
  refine ⟨fun h => by rw [h]; rfl, fun h => by rw [h]; rfl, ?_, ?_⟩
  · rw [resolveNewsItems]
    split_ifs with h
    · simp
    · simpa [List.isEmpty_iff] using h
  · intro d fps
    simp [VideoMaker.allClips]

/-- Witness: a missing news file yields exactly the placeholder item. -/
theorem c9_placeholder_default_witness :
    resolveNewsItems none = [placeholderItem] :=
  (c9_placeholder_default none).1 rfl

end TTSGenerator

namespace VideoAnimations

/-! ### `create_gradient_background` (src/video_animations.py, lines 73–115)

For each pixel a `ratio` is computed from the direction (integer `%` for
vertical/horizontal/diagonal, float `%` of the radial distance), then
`color_index = ratio * (len(colors) - 1)`, `idx1 = int(color_index)`,
`idx2 = min(idx1 + 1, len(colors) - 1)` select the two colours to
interpolate.  The radial distance `sqrt(dx*dx + dy*dy)` is irrational
and enters as the parameter `dist`. -/

/-- Gradient direction. -/
inductive Direction : Type
  | vertical | horizontal | diagonal | radial
deriving DecidableEq, Repr

/-- An RGB colour. -/
abbrev Color : Type := ℤ × ℤ × ℤ

/-- `shift = int(progress * 100)` (line 83). -/
def shift (progress : ℚ) : ℤ := pyInt (progress * 100)

/-- The interpolation ratio of pixel `(x, y)` (lines 87–100). -/
def ratioAt (dir : Direction) (width height : ℕ) (dist : ℕ → ℕ → ℚ)
    (progress : ℚ) (x y : ℕ) : ℚ :=
  match dir with
  | Direction.vertical =>
      ((((y : ℤ) + shift progress) % (height : ℤ) : ℤ) : ℚ) / (height : ℚ)
  | Direction.horizontal =>
      ((((x : ℤ) + shift progress) % (width : ℤ) : ℤ) : ℚ) / (width : ℚ)
  | Direction.diagonal =>
      ((((x : ℤ) + (y : ℤ) + shift progress) % ((width : ℤ) + (height : ℤ)) : ℤ) : ℚ)
        / ((width : ℚ) + (height : ℚ))
  | Direction.radial =>
      let m : ℚ := if (width : ℚ) / 2 = 0 then 1 else (width : ℚ) / 2
      qmod (dist x y + (shift progress : ℚ)) m / m

/-- `color_index = ratio * (len(colors) - 1)` (line 103). -/
def colorIndex (len : ℕ) (ratio : ℚ) : ℚ := ratio * ((len : ℚ) - 1)

/-- `idx1 = int(color_index)` (line 104). -/
def gradIdx1 (len : ℕ) (ratio : ℚ) : ℤ := pyInt (colorIndex len ratio)

/-- `idx2 = min(idx1 + 1, len(colors) - 1)` (line 105). -/
def gradIdx2 (len : ℕ) (ratio : ℚ) : ℤ :=
  min (gradIdx1 len ratio + 1) ((len : ℤ) - 1)

/-- Per-channel linear interpolation `int(c1 + (c2 - c1) * local_ratio)`
(lines 108–111). -/
def interpColor (c1 c2 : Color) (t : ℚ) : Color :=
  (pyInt ((c1.1 : ℚ) + ((c2.1 : ℚ) - (c1.1 : ℚ)) * t),
   pyInt ((c1.2.1 : ℚ) + ((c2.2.1 : ℚ) - (c1.2.1 : ℚ)) * t),
   pyInt ((c1.2.2 : ℚ) + ((c2.2.2 : ℚ) - (c1.2.2 : ℚ)) * t))

/-- The pixel colour for a given interpolation ratio. -/
def pixelAt (colors : List Color) (ratio : ℚ) : Color :=
  let i1 := (gradIdx1 colors.length ratio).toNat
  let i2 := (gradIdx2 colors.length ratio).toNat
  interpColor (colors.getD i1 (0, 0, 0)) (colors.getD i2 (0, 0, 0))
    (colorIndex colors.length ratio - gradIdx1 colors.length ratio)

/-- `create_gradient_background`: the `height × width` pixel grid. -/
def createGradientBackground (dir : Direction) (width height : ℕ)
    (colors : List Color) (progress : ℚ) (dist : ℕ → ℕ → ℚ) : List (List Color) :=
  (List.range height).map fun y =>
    (List.range width).map fun x =>
      pixelAt colors (ratioAt dir width height dist progress x y)

lemma emod_ratio_bounds (a b : ℤ) (hb : 0 < b) :
    0 ≤ ((a % b : ℤ) : ℚ) / (b : ℚ) ∧ ((a % b : ℤ) : ℚ) / (b : ℚ) < 1 := by
  have h0 : 0 ≤ a % b := Int.emod_nonneg a (ne_of_gt hb)
  have h1 : a % b < b := Int.emod_lt_of_pos a hb
  have hbq : (0 : ℚ) < (b : ℚ) := by exact_mod_cast hb
  constructor
  · apply div_nonneg _ (le_of_lt hbq)
    exact_mod_cast h0
  · rw [div_lt_one hbq]
    exact_mod_cast h1

lemma ratioAt_bounds (dir : Direction) (width height : ℕ) (dist : ℕ → ℕ → ℚ)
    (progress : ℚ) (x y : ℕ) (hw : 1 ≤ width) (hh : 1 ≤ height) :
    0 ≤ ratioAt dir width height dist progress x y
    ∧ ratioAt dir width height dist progress x y < 1 := by
  cases dir with
  | vertical =>
      exact emod_ratio_bounds _ _ (by exact_mod_cast hh)
  | horizontal =>
      exact emod_ratio_bounds _ _ (by exact_mod_cast hw)
  | diagonal =>
      have : (0 : ℤ) < (width : ℤ) + (height : ℤ) := by
        have : (1 : ℤ) ≤ (width : ℤ) := by exact_mod_cast hw
        have : (1 : ℤ) ≤ (height : ℤ) := by exact_mod_cast hh
        omega
      have h := emod_ratio_bounds ((x : ℤ) + (y : ℤ) + shift progress) _ this
      rw [ratioAt]
      constructor
      · have := h.1
        push_cast at this ⊢
        exact this
      · have := h.2
        push_cast at this ⊢
        exact this
  | radial =>
      rw [ratioAt]
      have hm : ∀ m : ℚ, m = (if (width : ℚ) / 2 = 0 then 1 else (width : ℚ) / 2) → 0 < m := by
        intro m hm
        split_ifs at hm with h
        · rw [hm]; norm_num
        · rw [hm]
          rcases lt_or_eq_of_le (by positivity : (0 : ℚ) ≤ (width : ℚ) / 2) with h2 | h2
          · exact h2
          · exact absurd h2.symm h
      have hmp := hm _ rfl
      constructor
      · exact div_nonneg (qmod_nonneg _ hmp) (le_of_lt hmp)
      · rw [div_lt_one hmp]
        exact qmod_lt _ hmp

lemma gradIdx1_bounds {len : ℕ} (hlen : 1 ≤ len) {r : ℚ} (hr0 : 0 ≤ r) (hr1 : r < 1) :
    0 ≤ gradIdx1 len r ∧ gradIdx1 len r < (len : ℤ) := by
  have hl1 : (0 : ℚ) ≤ (len : ℚ) - 1 := by
    have : (1 : ℚ) ≤ (len : ℚ) := by exact_mod_cast hlen
    linarith
  have hci0 : 0 ≤ colorIndex len r := mul_nonneg hr0 hl1
  rw [gradIdx1, pyInt_of_nonneg hci0]
  constructor
  · exact Int.floor_nonneg.mpr hci0
  · rw [Int.floor_lt]
    rw [colorIndex]
    push_cast
    nlinarith

lemma gradIdx2_bounds {len : ℕ} (hlen : 1 ≤ len) {r : ℚ} (hr0 : 0 ≤ r) (hr1 : r < 1) :
    0 ≤ gradIdx2 len r ∧ gradIdx2 len r < (len : ℤ) := by
  obtain ⟨h0, h1⟩ := gradIdx1_bounds hlen hr0 hr1
  have hlz : (1 : ℤ) ≤ (len : ℤ) := by exact_mod_cast hlen
  constructor
  · exact le_min (by omega) (by omega)
  · calc gradIdx2 len r ≤ (len : ℤ) - 1 := min_le_right _ _
      _ < (len : ℤ) := by omega

/-- C10: for a nonempty colour list and positive canvas dimensions, both
colour-interpolation indices of every pixel of the gradient background
stay within the bounds of the colour list, and the produced image has
exactly `height` rows of exactly `width` pixels each. -/
theorem c10_gradient_safety (dir : Direction) (width height : ℕ)
    (colors : List Color) (progress : ℚ) (dist : ℕ → ℕ → ℚ)
    (hc : colors ≠ []) (hw : 1 ≤ width) (hh : 1 ≤ height) :
    ((createGradientBackground dir width height colors progress dist).length = height
      ∧ ∀ row ∈ createGradientBackground dir width height colors progress dist,
          row.length = width)
    ∧ ∀ x y : ℕ,
        (0 ≤ gradIdx1 colors.length (ratioAt dir width height dist progress x y)
          ∧ gradIdx1 colors.length (ratioAt dir width height dist progress x y)
              < (colors.length : ℤ))
        ∧ (0 ≤ gradIdx2 colors.length (ratioAt dir width height dist progress x y)
          ∧ gradIdx2 colors.length (ratioAt dir width height dist progress x y)
              < (colors.length : ℤ)) := by
  have hlen : 1 ≤ colors.length := List.length_pos.mpr hc
  refine ⟨⟨?_, ?_⟩, ?_⟩
  · rw [createGradientBackground, List.length_map, List.length_range]
  · intro row hrow
    rw [createGradientBackground, List.mem_map] at hrow
    obtain ⟨y, _, rfl⟩ := hrow
    rw [List.length_map, List.length_range]
  · intro x y
    obtain ⟨hr0, hr1⟩ := ratioAt_bounds dir width height dist progress x y hw hh
    exact ⟨gradIdx1_bounds hlen hr0 hr1, gradIdx2_bounds hlen hr0 hr1⟩

/-- Witness: a 2 by 2 vertical gradient over two colours. -/
theorem c10_gradient_safety_witness :
    ((createGradientBackground Direction.vertical 2 2
        [(0, 0, 0), (255, 255, 255)] 0 (fun _ _ => 0)).length = 2
      ∧ ∀ row ∈ createGradientBackground Direction.vertical 2 2
          [(0, 0, 0), (255, 255, 255)] 0 (fun _ _ => 0),
          row.length = 2)
    ∧ ∀ x y : ℕ,
        (0 ≤ gradIdx1 2 (ratioAt Direction.vertical 2 2 (fun _ _ => 0) 0 x y)
          ∧ gradIdx1 2 (ratioAt Direction.vertical 2 2 (fun _ _ => 0) 0 x y) < (2 : ℤ))
        ∧ (0 ≤ gradIdx2 2 (ratioAt Direction.vertical 2 2 (fun _ _ => 0) 0 x y)
          ∧ gradIdx2 2 (ratioAt Direction.vertical 2 2 (fun _ _ => 0) 0 x y) < (2 : ℤ)) :=
  c10_gradient_safety Direction.vertical 2 2 [(0, 0, 0), (255, 255, 255)] 0
    (fun _ _ => 0) (by simp) (by norm_num) (by norm_num)

end VideoAnimations
